import Mathlib

/-!
Shallow embedding of the portfolio-analysis core shared by
`app_portafolio.py` and `practicalibrefinansmart.py`.

Modelling conventions:
* Python floats are modelled by exact real (or, generically, linear ordered
  field) arithmetic wherever the computation stays within finite values.
* The places where numpy produces a non-finite float (NaN or an infinity) —
  `np.sqrt` of a negative number, division by zero — are modelled explicitly
  with `Option ℝ`, where `none` stands for a non-finite float.  Every
  arithmetic operation propagates `none`, matching IEEE NaN propagation on
  the code paths modelled here (the only non-finite values fed back into
  arithmetic by the modelled pipelines are NaNs).
* Errors that Python raises are modelled with `Except PortError`.
-/

/-- Error taxonomy.  `valueError` models Python's builtin `ValueError`
(numpy raises it for `argmax`/`argmin` of an empty array); the remaining
constructors transcribe the error classes named by the specification
(none of them is ever raised by the source code). -/
inductive PortError where
  | insufficientData
  | dimensionMismatch
  | invalidParameter
  | valueError
deriving DecidableEq

section GenericDefs

variable {α : Type} [LinearOrderedField α]

/-- Embeds `data.pct_change().dropna()` on one asset column
(`app_portafolio.py` line 96, `practicalibrefinansmart.py` line 201):
periodic return `p_i / p_{i-1} - 1` for `i = 1..n-1`; the first row of
`pct_change` is NaN and is removed by `dropna`. -/
def rent_diaria : List α → List α
  | p0 :: p1 :: rest => (p1 / p0 - 1) :: rent_diaria (p1 :: rest)
  | _ => []

/-- Embeds pandas `.mean()` on one column: arithmetic mean. -/
def listMean (xs : List α) : α := xs.sum / (xs.length : α)

/-- Embeds pandas `.std()` (default `ddof = 1`) without the final square
root: sample variance with `N - 1` denominator. -/
def sampleVar (xs : List α) : α :=
  (xs.map (fun x => (x - listMean xs) ^ 2)).sum / ((xs.length : α) - 1)

/-- Embeds the weight normalisation `pesos /= np.sum(pesos)`
(`app_portafolio.py` lines 143-145, `practicalibrefinansmart.py`
lines 414-415) in exact arithmetic. -/
def normalizar (r : List α) : List α := r.map (fun x => x / r.sum)

/-- Elementwise product followed by sum: embeds both
`np.sum(a * b)` and `np.dot(a, b)` on vectors. -/
def dotL (v w : List α) : α := (List.zipWith (fun a b => a * b) v w).sum

/-- Embeds `np.dot(m, v)` for a matrix (list of rows) and a vector. -/
def matVec (m : List (List α)) (v : List α) : List α :=
  m.map (fun row => dotL row v)

/-- Embeds the quadratic form `np.dot(pesos.T, np.dot(cov, pesos))`
(`app_portafolio.py` line 150, `practicalibrefinansmart.py` line 420). -/
def quadForm (m : List (List α)) (v : List α) : α := dotL v (matVec m v)

/-- Embeds `retorno_portafolio = np.sum(rentabilidad_anual * pesos)`
(`app_portafolio.py` line 149); equal to `np.dot(weights, rent_promedio)`
of `practicalibrefinansmart.py` line 418 by commutativity. -/
def portafolio_retorno (mean pesos : List α) : α := dotL mean pesos

/-- Embeds `sharpe_calc = (ret - tasa_libre_riesgo) / risk_calc if
risk_calc != 0 else 0` (`practicalibrefinansmart.py` line 422) in exact
arithmetic. -/
def sharpe_calc (ret rf risk : α) : α :=
  if risk ≠ 0 then (ret - rf) / risk else 0

/-- The specification's re-derivation of cumulative growth from the
first `t` periodic returns: the product of the `1 + r_i`. -/
def cumGrowth (rets : List α) (t : Nat) : α :=
  ((rets.take t).map (fun r => 1 + r)).prod

/-- The specification's `computeReturns` contract: fail with
`InsufficientDataError` when the price table has fewer than 2 rows,
otherwise return the periodic returns. -/
def computeReturns_spec (p : List α) : Except PortError (List α) :=
  if p.length < 2 then .error .insufficientData else .ok (rent_diaria p)

end GenericDefs

section Argmax

variable {α : Type} [LinearOrder α]

/-- Embeds `np.argmax` on a non-empty array: the index of the first
occurrence of the maximum (numpy replaces the running best only on a
strictly greater element, so the first maximal element wins).
On `[]` numpy raises; the `[]` equation here is junk, see
`np_argmax_checked`. -/
def np_argmax : List α → Nat
  | [] => 0
  | [_] => 0
  | x :: y :: rest =>
    if x < (y :: rest).getD (np_argmax (y :: rest)) x then
      np_argmax (y :: rest) + 1
    else 0

/-- Embeds `np.argmin` on a non-empty array: index of the first
occurrence of the minimum. -/
def np_argmin : List α → Nat
  | [] => 0
  | [_] => 0
  | x :: y :: rest =>
    if (y :: rest).getD (np_argmin (y :: rest)) x < x then
      np_argmin (y :: rest) + 1
    else 0

/-- Embeds `np.argmax` including its behaviour on an empty array:
numpy raises `ValueError` ("attempt to get argmax of an empty sequence"). -/
def np_argmax_checked (l : List α) : Except PortError Nat :=
  if l.isEmpty then .error .valueError else .ok (np_argmax l)

/-- Embeds `np.argmin` including its `ValueError` on an empty array. -/
def np_argmin_checked (l : List α) : Except PortError Nat :=
  if l.isEmpty then .error .valueError else .ok (np_argmin l)

/-- Embeds `max_sharpe_idx = np.argmax(resultados_simulacion[2])`
(`app_portafolio.py` line 159, `practicalibrefinansmart.py` line 447),
applied to the row of sharpe values in generation order. -/
def max_sharpe_idx (sharpes : List α) : Nat := np_argmax sharpes

/-- Embeds `min_risk_idx = np.argmin(results[0])`
(`practicalibrefinansmart.py` line 461), applied to the row of risk
values in generation order. -/
def min_risk_idx (risks : List α) : Nat := np_argmin risks

end Argmax

section FloatModel

/-- Float addition with non-finite propagation: `none` models a
non-finite numpy float (NaN, or an infinity; only NaNs reach this
operation on the modelled code paths). -/
def oadd : Option ℝ → Option ℝ → Option ℝ
  | some a, some b => some (a + b)
  | _, _ => none

/-- Float subtraction with non-finite propagation. -/
def osub : Option ℝ → Option ℝ → Option ℝ
  | some a, some b => some (a - b)
  | _, _ => none

/-- Float multiplication with non-finite propagation. -/
def omul : Option ℝ → Option ℝ → Option ℝ
  | some a, some b => some (a * b)
  | _, _ => none

/-- Float division.  A finite numerator over zero is non-finite
(`inf`, `-inf` or NaN depending on the numerator's sign); any NaN
operand gives NaN.  Both cases are `none` here. -/
noncomputable def odiv : Option ℝ → Option ℝ → Option ℝ
  | some a, some b => if b = 0 then none else some (a / b)
  | _, _ => none

/-- Embeds `np.sqrt` on one float: NaN (with a runtime warning, no
exception) on a negative argument, `Real.sqrt` otherwise. -/
noncomputable def fsqrt (x : ℝ) : Option ℝ :=
  if 0 ≤ x then some (Real.sqrt x) else none

/-- `np.sqrt` lifted to a possibly non-finite argument. -/
noncomputable def osqrt : Option ℝ → Option ℝ
  | none => none
  | some a => fsqrt a

/-- `np.sum(a * b)` / `np.dot(a, b)` over possibly non-finite floats. -/
def odot (v w : List (Option ℝ)) : Option ℝ :=
  (List.zipWith omul v w).foldr oadd (some 0)

/-- Embeds the weight normalisation `pesos /= np.sum(pesos)` at float
level: each drawn value (finite) divided by the drawn values' sum.  When
every draw is 0 the division is `0.0 / 0.0 = NaN`. -/
noncomputable def normalizarF (r : List ℝ) : List (Option ℝ) :=
  r.map (fun x => odiv (some x) (some r.sum))

/-- Embeds `np.sum(rentabilidad_anual * pesos)` at float level, for
weights that may be NaN. -/
def retornoF (mean : List ℝ) (w : List (Option ℝ)) : Option ℝ :=
  odot (mean.map some) w

/-- Embeds `np.dot(cov, pesos)` at float level. -/
def matVecF (m : List (List ℝ)) (w : List (Option ℝ)) : List (Option ℝ) :=
  m.map (fun row => odot (row.map some) w)

/-- Embeds `np.dot(pesos.T, np.dot(cov, pesos))` at float level. -/
def quadFormF (m : List (List ℝ)) (w : List (Option ℝ)) : Option ℝ :=
  odot w (matVecF m w)

/-- Embeds `riesgo_portafolio = np.sqrt(np.dot(pesos.T, np.dot(cov,
pesos)))` (`app_portafolio.py` line 150) for finite weights: `np.sqrt`
applied directly to the quadratic form, with no clamping of a negative
argument. -/
noncomputable def portafolio_riesgoF (cov : List (List ℝ)) (w : List ℝ) : Option ℝ :=
  fsqrt (quadForm cov w)

/-- Embeds the risk of a trial whose weights may be NaN
(`practicalibrefinansmart.py` lines 419-421). -/
noncomputable def riesgoF (cov : List (List ℝ)) (w : List (Option ℝ)) : Option ℝ :=
  osqrt (quadFormF cov w)

/-- The specification's portfolio risk: the square root of the quadratic
form with a negative value clamped to 0 before the root. -/
noncomputable def risk_spec (cov : List (List ℝ)) (w : List ℝ) : ℝ :=
  Real.sqrt (max (quadForm cov w) 0)

/-- Embeds `resultados_simulacion[2, i] = retorno_portafolio /
riesgo_portafolio` (`app_portafolio.py` line 156): unguarded float
division, no risk-free term. -/
noncomputable def sharpe_appF (ret risk : Option ℝ) : Option ℝ := odiv ret risk

/-- Embeds `sharpe_calc = (ret - tasa_libre_riesgo) / risk_calc if
risk_calc != 0 else 0` (`practicalibrefinansmart.py` line 422) at float
level.  A NaN risk compares `!= 0` as true in Python, so it takes the
division branch. -/
noncomputable def sharpe_calcF (ret : Option ℝ) (rf : ℝ) (risk : Option ℝ) : Option ℝ :=
  if risk ≠ some 0 then odiv (osub ret (some rf)) risk else some 0

/-- Embeds the per-asset `sharpe = (rent_promedio - tasa_libre_riesgo) /
riesgo` (`practicalibrefinansmart.py` line 265): unguarded division by
the asset's volatility. -/
noncomputable def sharpe_asset (ret : Option ℝ) (rf : ℝ) (vol : Option ℝ) : Option ℝ :=
  odiv (osub ret (some rf)) vol

end FloatModel

section AnnualizedStats

/-- Embeds pandas `.std()` on one column: sample standard deviation,
`ddof = 1`. -/
noncomputable def sampleStd (xs : List ℝ) : ℝ := Real.sqrt (sampleVar xs)

/-- Embeds `rentabilidad_anual = retornos_diarios.mean() * 252`
(`app_portafolio.py` line 100, `practicalibrefinansmart.py` line 263)
on one asset column. -/
noncomputable def rentabilidad_anual (xs : List ℝ) : ℝ := listMean xs * 252

/-- Embeds `volatilidad_anual = retornos_diarios.std() * np.sqrt(252)`
(`app_portafolio.py` line 101, `practicalibrefinansmart.py` line 264)
on one asset column. -/
noncomputable def volatilidad_anual (xs : List ℝ) : ℝ := sampleStd xs * Real.sqrt 252

/-- The specification's annualised return written out in full:
the arithmetic mean of the periodic returns times 252. -/
noncomputable def annualizedReturn_spec (xs : List ℝ) : ℝ :=
  252 * xs.sum / (xs.length : ℝ)

/-- The specification's annualised volatility written out in full:
sample standard deviation (`N - 1` denominator) times `sqrt 252`,
combined under a single square root. -/
noncomputable def annualizedVolatility_spec (xs : List ℝ) : ℝ :=
  Real.sqrt (252 * ((xs.map (fun x => (x - xs.sum / (xs.length : ℝ)) ^ 2)).sum /
    ((xs.length : ℝ) - 1)))

end AnnualizedStats

section MonteCarlo

/-- Embeds one iteration of the Monte Carlo loop
(`practicalibrefinansmart.py` lines 413-426) in exact real arithmetic
(the idealisation is faithful whenever no non-finite float arises, i.e.
whenever the drawn values do not all vanish and the quadratic form is
nonnegative; the non-finite cases are modelled by the float layer
above).  Returns `(risk, return, sharpe)` as stored in `results`. -/
noncomputable def mc_trial (mean : List ℝ) (cov : List (List ℝ)) (rf : ℝ)
    (draw : List ℝ) : ℝ × ℝ × ℝ :=
  let weights := normalizar draw
  let ret := portafolio_retorno mean weights
  let risk := Real.sqrt (quadForm cov weights)
  (risk, ret, sharpe_calc ret rf risk)

/-- The rows of `results` after the loop `for i in range(num_simulaciones)`:
one `(risk, return, sharpe)` triple per trial, in generation order.
`rand i` is the vector of uniform draws consumed by trial `i`. -/
noncomputable def mc_results (mean : List ℝ) (cov : List (List ℝ)) (rf : ℝ)
    (num : Nat) (rand : Nat → List ℝ) : List (ℝ × ℝ × ℝ) :=
  (List.range num).map (fun i => mc_trial mean cov rf (rand i))

/-- The `weights_record` list accumulated by the loop. -/
noncomputable def mc_weights (num : Nat) (rand : Nat → List ℝ) : List (List ℝ) :=
  (List.range num).map (fun i => normalizar (rand i))

/-- Embeds the optimiser end to end: run `num` trials and then select
`max_sharpe_idx = np.argmax(results[2])` and
`min_risk_idx = np.argmin(results[0])`
(`practicalibrefinansmart.py` lines 447 and 461).  The argmax is
evaluated first, exactly as in the source, and raising is modelled by
`Except`. -/
noncomputable def montecarlo (mean : List ℝ) (cov : List (List ℝ)) (rf : ℝ)
    (num : Nat) (rand : Nat → List ℝ) : Except PortError (Nat × Nat) :=
  let results := mc_results mean cov rf num rand
  match np_argmax_checked (results.map (fun t => t.2.2)) with
  | .error e => .error e
  | .ok i =>
    match np_argmin_checked (results.map (fun t => t.1)) with
    | .error e => .error e
    | .ok j => .ok (i, j)

/-- Modelled from the spec: the seedable random number generator.  The
source files draw from numpy's process-wide Mersenne Twister stream,
which is library code not present in this repository; the spec only
requires a seedable generator whose stream is a deterministic function
of the seed.  A linear congruential step stands in for it. -/
def lcg (s : Nat) : Nat := (1664525 * s + 1013904223) % 4294967296

/-- Modelled from the spec: the generator state after `k` draws from
seed `s`. -/
def lcgIter (s k : Nat) : Nat := Nat.rec s (fun _ acc => lcg acc) k

/-- Modelled from the spec: the vector of `n` uniform values consumed by
trial `i` when the stream is seeded with `seed` (each value in `[0,1)`). -/
noncomputable def randFrom (seed n : Nat) (i : Nat) : List ℝ :=
  (List.range n).map (fun j => (lcgIter seed (i * n + j + 1) : ℝ) / 4294967296)

/-- The optimiser run from a seed: same inputs and seed determine the
whole draw stream and hence the whole run. -/
noncomputable def montecarloSeeded (mean : List ℝ) (cov : List (List ℝ)) (rf : ℝ)
    (num : Nat) (seed n : Nat) : Except PortError (Nat × Nat) :=
  montecarlo mean cov rf num (randFrom seed n)

end MonteCarlo

/-! ## Helper lemmas -/

section ArgmaxLemmas

variable {α : Type} [LinearOrder α]

theorem getD_eq_get {α : Type} : ∀ (l : List α) (n : Nat) (h : n < l.length) (d : α),
    l.getD n d = l.get ⟨n, h⟩
  | _ :: _, 0, _, _ => rfl
  | _ :: l, n + 1, h, d => getD_eq_get l n (Nat.lt_of_succ_lt_succ h) d

theorem getD_indep {α : Type} : ∀ (l : List α) (n : Nat), n < l.length →
    ∀ (d1 d2 : α), l.getD n d1 = l.getD n d2
  | _ :: _, 0, _, _, _ => rfl
  | _ :: l, n + 1, h, d1, d2 => getD_indep l n (Nat.lt_of_succ_lt_succ h) d1 d2

theorem np_argmax_spec : ∀ (l : List α), l ≠ [] →
    np_argmax l < l.length ∧
    (∀ j (d : α), j < l.length → l.getD j d ≤ l.getD (np_argmax l) d) ∧
    (∀ j (d : α), j < np_argmax l → l.getD j d < l.getD (np_argmax l) d) := by
  intro l
  induction l with
  | nil => intro h; exact absurd rfl h
  | cons x tl ih =>
    intro _
    cases tl with
    | nil =>
      refine ⟨by simp [np_argmax], ?_, ?_⟩
      · intro j d hj
        have hj0 : j = 0 := Nat.lt_one_iff.mp (by simpa using hj)
        subst hj0
        exact le_of_eq (by simp [np_argmax])
      · intro j d hj
        simp [np_argmax] at hj
    | cons y rest =>
      obtain ⟨hk, hmax, hfirst⟩ := ih (by simp)
      by_cases h : x < (y :: rest).getD (np_argmax (y :: rest)) x
      · have he : np_argmax (x :: y :: rest) = np_argmax (y :: rest) + 1 := by
          rw [np_argmax, if_pos h]
        rw [he]
        refine ⟨Nat.succ_lt_succ hk, ?_, ?_⟩
        · intro j d hj
          cases j with
          | zero =>
            show x ≤ (y :: rest).getD (np_argmax (y :: rest)) d
            rw [getD_indep _ _ hk d x]
            exact le_of_lt h
          | succ j1 =>
            exact hmax j1 d (Nat.lt_of_succ_lt_succ hj)
        · intro j d hj
          cases j with
          | zero =>
            show x < (y :: rest).getD (np_argmax (y :: rest)) d
            rw [getD_indep _ _ hk d x]
            exact h
          | succ j1 =>
            exact hfirst j1 d (Nat.lt_of_succ_lt_succ hj)
      · have he : np_argmax (x :: y :: rest) = 0 := by
          rw [np_argmax, if_neg h]
        rw [he]
        refine ⟨Nat.succ_pos _, ?_, ?_⟩
        · intro j d hj
          cases j with
          | zero => exact le_rfl
          | succ j1 =>
            show (y :: rest).getD j1 d ≤ x
            calc (y :: rest).getD j1 d
                ≤ (y :: rest).getD (np_argmax (y :: rest)) d :=
                  hmax j1 d (Nat.lt_of_succ_lt_succ hj)
              _ = (y :: rest).getD (np_argmax (y :: rest)) x :=
                  getD_indep _ _ hk d x
              _ ≤ x := not_lt.mp h
        · intro j d hj
          exact absurd hj (Nat.not_lt_zero j)

theorem np_argmin_spec : ∀ (l : List α), l ≠ [] →
    np_argmin l < l.length ∧
    (∀ j (d : α), j < l.length → l.getD (np_argmin l) d ≤ l.getD j d) ∧
    (∀ j (d : α), j < np_argmin l → l.getD (np_argmin l) d < l.getD j d) := by
  intro l
  induction l with
  | nil => intro h; exact absurd rfl h
  | cons x tl ih =>
    intro _
    cases tl with
    | nil =>
      refine ⟨by simp [np_argmin], ?_, ?_⟩
      · intro j d hj
        have hj0 : j = 0 := Nat.lt_one_iff.mp (by simpa using hj)
        subst hj0
        exact le_of_eq (by simp [np_argmin])
      · intro j d hj
        simp [np_argmin] at hj
    | cons y rest =>
      obtain ⟨hk, hmin, hfirst⟩ := ih (by simp)
      by_cases h : (y :: rest).getD (np_argmin (y :: rest)) x < x
      · have he : np_argmin (x :: y :: rest) = np_argmin (y :: rest) + 1 := by
          rw [np_argmin, if_pos h]
        rw [he]
        refine ⟨Nat.succ_lt_succ hk, ?_, ?_⟩
        · intro j d hj
          cases j with
          | zero =>
            show (y :: rest).getD (np_argmin (y :: rest)) d ≤ x
            calc (y :: rest).getD (np_argmin (y :: rest)) d
                = (y :: rest).getD (np_argmin (y :: rest)) x :=
                  getD_indep _ _ hk d x
              _ ≤ x := le_of_lt h
          | succ j1 =>
            exact hmin j1 d (Nat.lt_of_succ_lt_succ hj)
        · intro j d hj
          cases j with
          | zero =>
            show (y :: rest).getD (np_argmin (y :: rest)) d < x
            calc (y :: rest).getD (np_argmin (y :: rest)) d
                = (y :: rest).getD (np_argmin (y :: rest)) x :=
                  getD_indep _ _ hk d x
              _ < x := h
          | succ j1 =>
            exact hfirst j1 d (Nat.lt_of_succ_lt_succ hj)
      · have he : np_argmin (x :: y :: rest) = 0 := by
          rw [np_argmin, if_neg h]
        rw [he]
        refine ⟨Nat.succ_pos _, ?_, ?_⟩
        · intro j d hj
          cases j with
          | zero => exact le_rfl
          | succ j1 =>
            show x ≤ (y :: rest).getD j1 d
            calc x ≤ (y :: rest).getD (np_argmin (y :: rest)) x := not_lt.mp h
              _ = (y :: rest).getD (np_argmin (y :: rest)) d :=
                  getD_indep _ _ hk x d
              _ ≤ (y :: rest).getD j1 d :=
                  hmin j1 d (Nat.lt_of_succ_lt_succ hj)
        · intro j d hj
          exact absurd hj (Nat.not_lt_zero j)

end ArgmaxLemmas

section FieldLemmas

variable {α : Type} [LinearOrderedField α]

theorem sum_map_div (r : List α) (s : α) :
    (r.map (fun x => x / s)).sum = r.sum / s := by
  induction r with
  | nil => simp
  | cons x tl ih => simp [ih, add_div]

theorem dotL_comm : ∀ (v w : List α), dotL v w = dotL w v := by
  intro v
  induction v with
  | nil => intro w; cases w <;> simp [dotL]
  | cons x tl ih =>
    intro w
    cases w with
    | nil => simp [dotL]
    | cons y ws =>
      have hih := ih ws
      simp only [dotL, List.zipWith_cons_cons, List.sum_cons] at hih ⊢
      rw [mul_comm x y, hih]

end FieldLemmas

theorem sampleVar_nonneg (xs : List ℝ) : 0 ≤ sampleVar xs := by
  cases xs with
  | nil => simp [sampleVar, listMean]
  | cons x tl =>
    apply div_nonneg
    · apply List.sum_nonneg
      intro y hy
      simp only [List.mem_map] at hy
      obtain ⟨z, _, rfl⟩ := hy
      exact sq_nonneg _
    · have h0 : (0 : ℝ) ≤ (tl.length : ℝ) := Nat.cast_nonneg _
      simp only [List.length_cons]
      push_cast
      linarith

theorem odot_none_left (a b : List (Option ℝ)) (hb : b ≠ []) :
    odot (none :: a) b = none := by
  cases b with
  | nil => exact absurd rfl hb
  | cons y bs => rfl

theorem odot_some_none (m : ℝ) (a b : List (Option ℝ)) :
    odot (some m :: a) (none :: b) = none := rfl

/-! ## Claims -/

/-- C2 is false as stated: the all-zero draw lies in `[0,1)^N` yet its
normalisation does not sum to 1 (in numpy the division is `0.0 / 0.0 =
NaN`; in exact arithmetic, where `x / 0 = 0`, the weights are `[0, 0]`
and sum to 0, not 1). -/
theorem C2_counterexample :
    (∀ x ∈ [(0 : ℚ), 0], 0 ≤ x ∧ x < 1) ∧ (normalizar [(0 : ℚ), 0]).sum ≠ 1 := by
  constructor
  · norm_num
  · norm_num [normalizar, List.sum_cons, List.sum_nil]

/-- C2 (amended): whenever the drawn values are nonnegative and their
sum is strictly positive — which holds for every draw from `[0,1)^N`
except the all-zero one — the normalised weight vector has every element
≥ 0 and its elements sum exactly to 1. -/
theorem C2_weights_normalized {α : Type} [LinearOrderedField α] (r : List α)
    (h0 : ∀ x ∈ r, 0 ≤ x) (hs : 0 < r.sum) :
    (∀ w ∈ normalizar r, 0 ≤ w) ∧ (normalizar r).sum = 1 := by
  constructor
  · intro w hw
    simp only [normalizar, List.mem_map] at hw
    obtain ⟨x, hx, rfl⟩ := hw
    exact div_nonneg (h0 x hx) (le_of_lt hs)
  · rw [normalizar, sum_map_div, div_self (ne_of_gt hs)]

/-- Witness for the amended C2 at the concrete draw `[1, 3]`. -/
theorem C2_weights_normalized_witness :
    ((∀ x ∈ [(1 : ℚ), 3], 0 ≤ x) ∧ 0 < ([(1 : ℚ), 3]).sum) ∧
    (∀ w ∈ normalizar [(1 : ℚ), 3], 0 ≤ w) ∧ (normalizar [(1 : ℚ), 3]).sum = 1 :=
  ⟨⟨by norm_num, by norm_num [List.sum_cons, List.sum_nil]⟩,
    C2_weights_normalized _ (by norm_num) (by norm_num [List.sum_cons, List.sum_nil])⟩

/-- C3: for every non-empty column of periodic returns, the annualised
return computed by the code equals the mean of the returns times 252,
and the annualised volatility equals the sample standard deviation
(`N - 1` denominator) times `sqrt 252`, both written out in full on the
specification side. -/
theorem C3_annualized_stats (xs : List ℝ) (_h : xs ≠ []) :
    rentabilidad_anual xs = annualizedReturn_spec xs ∧
    volatilidad_anual xs = annualizedVolatility_spec xs := by
  constructor
  · rw [rentabilidad_anual, annualizedReturn_spec, listMean]
    ring
  · rw [volatilidad_anual, annualizedVolatility_spec, sampleStd,
      ← Real.sqrt_mul (sampleVar_nonneg xs) 252]
    congr 1
    simp only [sampleVar, listMean]
    ring

/-- Witness for C3 at the concrete return column `[1, 3]`. -/
theorem C3_annualized_stats_witness :
    ([(1 : ℝ), 3] ≠ [] ∧
      rentabilidad_anual [(1 : ℝ), 3] = annualizedReturn_spec [(1 : ℝ), 3] ∧
      volatilidad_anual [(1 : ℝ), 3] = annualizedVolatility_spec [(1 : ℝ), 3]) :=
  ⟨List.cons_ne_nil _ _, C3_annualized_stats _ (List.cons_ne_nil _ _)⟩

/-- C4: on every non-empty run, the best-by-sharpe selection returns an
in-range index whose sharpe value is greatest, every strictly earlier
trial having a strictly smaller sharpe value (so on exact ties the first
trial in generation order wins); and the best-by-minimum-risk selection
returns an in-range index whose risk value is smallest, with the same
first-wins tie-break. -/
theorem C4_best_selection {α : Type} [LinearOrder α] (sharpes risks : List α)
    (h1 : sharpes ≠ []) (h2 : risks ≠ []) :
    (max_sharpe_idx sharpes < sharpes.length ∧
      (∀ j (d : α), j < sharpes.length →
        sharpes.getD j d ≤ sharpes.getD (max_sharpe_idx sharpes) d) ∧
      (∀ j (d : α), j < max_sharpe_idx sharpes →
        sharpes.getD j d < sharpes.getD (max_sharpe_idx sharpes) d)) ∧
    (min_risk_idx risks < risks.length ∧
      (∀ j (d : α), j < risks.length →
        risks.getD (min_risk_idx risks) d ≤ risks.getD j d) ∧
      (∀ j (d : α), j < min_risk_idx risks →
        risks.getD (min_risk_idx risks) d < risks.getD j d)) :=
  ⟨np_argmax_spec sharpes h1, np_argmin_spec risks h2⟩

/-- Witness for C4 on concrete rows: the sharpe row `[2, 3, 3, 1]`
(maximum 3 occurs at indices 1 and 2, the selection picks 1) and the
risk row `[5, 1, 1, 2]` (minimum 1 at indices 1 and 2, picks 1). -/
theorem C4_best_selection_witness :
    (([(2 : ℚ), 3, 3, 1] : List ℚ) ≠ [] ∧ ([(5 : ℚ), 1, 1, 2] : List ℚ) ≠ [] ∧
      max_sharpe_idx [(2 : ℚ), 3, 3, 1] = 1 ∧ min_risk_idx [(5 : ℚ), 1, 1, 2] = 1) ∧
    (max_sharpe_idx [(2 : ℚ), 3, 3, 1] < ([(2 : ℚ), 3, 3, 1]).length ∧
      (∀ j (d : ℚ), j < ([(2 : ℚ), 3, 3, 1]).length →
        ([(2 : ℚ), 3, 3, 1]).getD j d ≤
          ([(2 : ℚ), 3, 3, 1]).getD (max_sharpe_idx [(2 : ℚ), 3, 3, 1]) d) ∧
      (∀ j (d : ℚ), j < max_sharpe_idx [(2 : ℚ), 3, 3, 1] →
        ([(2 : ℚ), 3, 3, 1]).getD j d <
          ([(2 : ℚ), 3, 3, 1]).getD (max_sharpe_idx [(2 : ℚ), 3, 3, 1]) d)) ∧
    (min_risk_idx [(5 : ℚ), 1, 1, 2] < ([(5 : ℚ), 1, 1, 2]).length ∧
      (∀ j (d : ℚ), j < ([(5 : ℚ), 1, 1, 2]).length →
        ([(5 : ℚ), 1, 1, 2]).getD (min_risk_idx [(5 : ℚ), 1, 1, 2]) d ≤
          ([(5 : ℚ), 1, 1, 2]).getD j d) ∧
      (∀ j (d : ℚ), j < min_risk_idx [(5 : ℚ), 1, 1, 2] →
        ([(5 : ℚ), 1, 1, 2]).getD (min_risk_idx [(5 : ℚ), 1, 1, 2]) d <
          ([(5 : ℚ), 1, 1, 2]).getD j d)) := by
  have hc := C4_best_selection [(2 : ℚ), 3, 3, 1] [(5 : ℚ), 1, 1, 2]
    (by simp) (by simp)
  refine ⟨⟨by simp, by simp, ?_, ?_⟩, hc.1, hc.2⟩
  · norm_num [max_sharpe_idx, np_argmax]
  · norm_num [min_risk_idx, np_argmin]

/-- C6: for every column of strictly positive prices and every period
index `t` with `t + 1` in range, compounding the first `t + 1` computed
periodic returns reproduces the price ratio `p_(t+1) / p_0` exactly. -/
theorem C6_returns_roundtrip {α : Type} [LinearOrderedField α] :
    ∀ (p : List α), (∀ x ∈ p, 0 < x) → ∀ t, t + 1 < p.length →
      cumGrowth (rent_diaria p) (t + 1) = p.getD (t + 1) 1 / p.getD 0 1 := by
  intro p
  induction p with
  | nil => intro _ t ht; simp at ht
  | cons p0 tl ih =>
    intro hpos t ht
    cases tl with
    | nil => simp at ht
    | cons p1 rest =>
      have hp0 : p0 ≠ 0 := ne_of_gt (hpos p0 (List.mem_cons_self _ _))
      have hp1 : p1 ≠ 0 :=
        ne_of_gt (hpos p1 (List.mem_cons_of_mem _ (List.mem_cons_self _ _)))
      cases t with
      | zero =>
        simp only [cumGrowth, rent_diaria, List.take_succ_cons, List.take_zero,
          List.map_cons, List.map_nil, List.prod_cons, List.prod_nil,
          List.getD_cons_succ, List.getD_cons_zero, mul_one]
        ring
      | succ s =>
        have hlen : s + 1 < (p1 :: rest).length := by
          simp only [List.length_cons] at ht ⊢
          omega
        have hih := ih (fun x hx => hpos x (List.mem_cons_of_mem _ hx)) s hlen
        have hstep : cumGrowth (rent_diaria (p0 :: p1 :: rest)) (s + 1 + 1)
            = (1 + (p1 / p0 - 1)) * cumGrowth (rent_diaria (p1 :: rest)) (s + 1) := by
          simp only [cumGrowth, rent_diaria, List.take_succ_cons, List.map_cons,
            List.prod_cons]
        rw [hstep, hih]
        simp only [List.getD_cons_succ, List.getD_cons_zero]
        have h1 : (1 : α) + (p1 / p0 - 1) = p1 / p0 := by ring
        rw [h1, div_mul_div_comm, mul_comm p0 p1, mul_div_mul_left _ _ hp1]

/-- Witness for C6 at the concrete price column `[2, 3, 6]`, `t = 1`:
the compounded growth `(3/2) * 2 = 3` equals `6 / 2`. -/
theorem C6_returns_roundtrip_witness :
    ((∀ x ∈ [(2 : ℚ), 3, 6], 0 < x) ∧ 1 + 1 < ([(2 : ℚ), 3, 6]).length) ∧
    cumGrowth (rent_diaria [(2 : ℚ), 3, 6]) (1 + 1)
      = ([(2 : ℚ), 3, 6]).getD (1 + 1) 1 / ([(2 : ℚ), 3, 6]).getD 0 1 :=
  ⟨⟨by norm_num, by norm_num⟩, C6_returns_roundtrip _ (by norm_num) 1 (by norm_num)⟩

/-- C8 is false as stated: on the one-row price table `[5]` the return
computation silently yields the empty return matrix — no error of any
kind is raised — while the specification's contract, stated alongside,
demands `InsufficientDataError` on the same input. -/
theorem C8_counterexample :
    rent_diaria [(5 : ℚ)] = [] ∧
    computeReturns_spec [(5 : ℚ)] = Except.error PortError.insufficientData :=
  ⟨rfl, rfl⟩

/-- C8 (amended): on every price table with fewer than 2 rows,
`pct_change().dropna()` returns the empty return matrix and raises
nothing. -/
theorem C8_short_table_empty {α : Type} [LinearOrderedField α] (p : List α)
    (h : p.length < 2) : rent_diaria p = [] := by
  cases p with
  | nil => rfl
  | cons x tl =>
    cases tl with
    | nil => rfl
    | cons y rest =>
      simp only [List.length_cons] at h
      omega

/-- Witness for the amended C8 at the one-row table `[5]`. -/
theorem C8_short_table_empty_witness :
    ([(5 : ℚ)].length < 2) ∧ rent_diaria [(5 : ℚ)] = [] :=
  ⟨by decide, C8_short_table_empty _ (by decide)⟩

/-- C1 is false as stated: the code applies `np.sqrt` directly to the
quadratic form with no clamping, so at the matrix `[[-1]]` and weights
`[1]` — where the quadratic form is `-1` — the risk is NaN (modelled
`none`), not the claimed `sqrt` of the value clamped to 0. -/
theorem C1_counterexample :
    portafolio_riesgoF [[(-1 : ℝ)]] [1] = none ∧
    portafolio_riesgoF [[(-1 : ℝ)]] [1] ≠ some (risk_spec [[(-1 : ℝ)]] [1]) := by
  have hq : quadForm [[(-1 : ℝ)]] [1] = -1 := by
    norm_num [quadForm, matVec, dotL]
  have h1 : portafolio_riesgoF [[(-1 : ℝ)]] [1] = none := by
    rw [portafolio_riesgoF, hq, fsqrt, if_neg (by norm_num)]
  refine ⟨h1, ?_⟩
  rw [h1]
  simp

/-- C1 (amended): the portfolio evaluation returns
`return = dot(weights, meanVector)` and, whenever the quadratic form
`wᵀ·cov·w` is nonnegative (as it is for every genuine covariance
matrix), `risk = sqrt(wᵀ·cov·w)`; a negative quadratic form is not
clamped — `np.sqrt` then yields NaN without raising. -/
theorem C1_evaluate (mean : List ℝ) (cov : List (List ℝ)) (w : List ℝ)
    (h : 0 ≤ quadForm cov w) :
    portafolio_riesgoF cov w = some (Real.sqrt (quadForm cov w)) ∧
    portafolio_retorno mean w = dotL w mean := by
  refine ⟨?_, dotL_comm mean w⟩
  rw [portafolio_riesgoF, fsqrt, if_pos h]

/-- Witness for the amended C1 at `mean = [3]`, `cov = [[4]]`,
`w = [1]`, where the quadratic form is `4 ≥ 0`. -/
theorem C1_evaluate_witness :
    0 ≤ quadForm [[(4 : ℝ)]] [1] ∧
    (portafolio_riesgoF [[(4 : ℝ)]] [1]
        = some (Real.sqrt (quadForm [[(4 : ℝ)]] [1])) ∧
      portafolio_retorno [(3 : ℝ)] [1] = dotL [1] [(3 : ℝ)]) :=
  ⟨by norm_num [quadForm, matVec, dotL],
    C1_evaluate [(3 : ℝ)] [[(4 : ℝ)]] [1] (by norm_num [quadForm, matVec, dotL])⟩

/-- C5 is false as stated: there is no uniform zero-risk sentinel — at
the same input (`return = 1`, `risk = 0`) the `app_portafolio.py` trial
sharpe is the unguarded division `1 / 0.0`, a non-finite float, while
the `practicalibrefinansmart.py` trial sharpe is the sentinel 0. -/
theorem C5_counterexample :
    sharpe_appF (some (1 : ℝ)) (some 0) = none ∧
    sharpe_calcF (some (1 : ℝ)) 0 (some 0) = some 0 ∧
    sharpe_appF (some (1 : ℝ)) (some 0) ≠ sharpe_calcF (some (1 : ℝ)) 0 (some 0) := by
  have h1 : sharpe_appF (some (1 : ℝ)) (some 0) = none := by
    simp [sharpe_appF, odiv]
  have h2 : sharpe_calcF (some (1 : ℝ)) 0 (some 0) = some 0 := by
    rw [sharpe_calcF, if_neg (by simp)]
  refine ⟨h1, h2, ?_⟩
  rw [h1, h2]
  simp

/-- C5 (amended): the zero-risk policy differs between the two variants
and no exception is raised in either.  At `risk = 0` the
`practicalibrefinansmart.py` trial sharpe is the sentinel 0, while the
`app_portafolio.py` trial sharpe and the per-asset sharpe are unguarded
divisions by zero yielding a non-finite float; at `risk ≠ 0` the guarded
variant computes `(return - riskFreeRate) / risk` and the unguarded app
variant computes `return / risk` (no risk-free term). -/
theorem C5_sharpe_policy (ret rf risk : ℝ) :
    (risk = 0 →
      sharpe_calcF (some ret) rf (some risk) = some 0 ∧
      sharpe_appF (some ret) (some risk) = none ∧
      sharpe_asset (some ret) rf (some risk) = none) ∧
    (risk ≠ 0 →
      sharpe_calcF (some ret) rf (some risk) = some ((ret - rf) / risk) ∧
      sharpe_appF (some ret) (some risk) = some (ret / risk)) := by
  constructor
  · intro h
    subst h
    refine ⟨?_, ?_, ?_⟩
    · rw [sharpe_calcF, if_neg (by simp)]
    · simp [sharpe_appF, odiv]
    · simp [sharpe_asset, osub, odiv]
  · intro h
    constructor
    · rw [sharpe_calcF, if_pos (by simpa using h)]
      simp [odiv, osub, h]
    · simp [sharpe_appF, odiv, h]

/-- Witness for the amended C5 at `return = 1`, `riskFreeRate = 0` and
the two risks 0 and 2. -/
theorem C5_sharpe_policy_witness :
    (sharpe_calcF (some (1 : ℝ)) 0 (some 0) = some 0 ∧
      sharpe_appF (some (1 : ℝ)) (some 0) = none ∧
      sharpe_asset (some (1 : ℝ)) 0 (some 0) = none) ∧
    (sharpe_calcF (some (1 : ℝ)) 0 (some 2) = some ((1 - 0) / 2) ∧
      sharpe_appF (some (1 : ℝ)) (some 2) = some (1 / 2)) :=
  ⟨(C5_sharpe_policy 1 0 0).1 rfl, (C5_sharpe_policy 1 0 2).2 (by norm_num)⟩

/-- C7 is false as stated: with zero trials the optimiser does not fail
with `InvalidParameterError` — it runs the empty loop and then
`np.argmax` of the empty sharpe row raises `ValueError`. -/
theorem C7_counterexample :
    montecarlo [(1 : ℝ)] [[1]] 0 0 (fun _ => [1])
      = Except.error PortError.valueError ∧
    montecarlo [(1 : ℝ)] [[1]] 0 0 (fun _ => [1])
      ≠ Except.error PortError.invalidParameter := by
  have h1 : montecarlo [(1 : ℝ)] [[1]] 0 0 (fun _ => [1])
      = Except.error PortError.valueError := by
    simp [montecarlo, mc_results, np_argmax_checked]
  refine ⟨h1, ?_⟩
  rw [h1]
  intro hc
  exact PortError.noConfusion (Except.error.inj hc)

/-- C7 (amended): for `numTrials = 0` and every input, the optimiser
records zero trials and zero weight vectors, and then fails with the
`ValueError` that numpy raises for `argmax` of an empty array; the code
performs no `numTrials` validation and no `InvalidParameterError`
exists anywhere in it. -/
theorem C7_zero_trials (mean : List ℝ) (cov : List (List ℝ)) (rf : ℝ)
    (rand : Nat → List ℝ) :
    mc_results mean cov rf 0 rand = [] ∧ mc_weights 0 rand = [] ∧
    montecarlo mean cov rf 0 rand = Except.error PortError.valueError := by
  refine ⟨by simp [mc_results], by simp [mc_weights], ?_⟩
  simp [montecarlo, mc_results, np_argmax_checked]

/-- C9: with the seedable generator modelled from the spec, the whole
run — the recorded weight-vector sequence and the two selected optimum
indices — is a pure function of the seed and the inputs: equal seeds
give identical runs. -/
theorem C9_determinism (mean : List ℝ) (cov : List (List ℝ)) (rf : ℝ)
    (num n seed1 seed2 : Nat) (h : seed1 = seed2) :
    mc_weights num (randFrom seed1 n) = mc_weights num (randFrom seed2 n) ∧
    montecarloSeeded mean cov rf num seed1 n
      = montecarloSeeded mean cov rf num seed2 n := by
  subst h
  exact ⟨rfl, rfl⟩

/-- Witness for C9 at seed 7 on a concrete two-trial run. -/
theorem C9_determinism_witness :
    (7 : Nat) = 7 ∧
    (mc_weights 2 (randFrom 7 1) = mc_weights 2 (randFrom 7 1) ∧
      montecarloSeeded [(1 : ℝ)] [[1]] 0 2 7 1
        = montecarloSeeded [(1 : ℝ)] [[1]] 0 2 7 1) :=
  ⟨rfl, C9_determinism [(1 : ℝ)] [[1]] 0 2 1 7 7 rfl⟩

/-- C10: at the representable all-zero draw the normalisation divides
zero by zero, so every weight is NaN and the trial's return, risk and
sharpe (in both variants) are NaN, with no exception anywhere — every
operation involved is total; and whenever the drawn values sum to a
strictly positive value every normalised weight is finite. -/
theorem C10_zero_draw_nan (mean : List ℝ) (cov : List (List ℝ)) (rf : ℝ)
    (n : Nat) (hn : 0 < n) (hm : mean.length = n) (hc : cov.length = n) :
    normalizarF (List.replicate n 0) = List.replicate n none ∧
    retornoF mean (normalizarF (List.replicate n 0)) = none ∧
    riesgoF cov (normalizarF (List.replicate n 0)) = none ∧
    sharpe_appF (retornoF mean (normalizarF (List.replicate n 0)))
      (riesgoF cov (normalizarF (List.replicate n 0))) = none ∧
    sharpe_calcF (retornoF mean (normalizarF (List.replicate n 0))) rf
      (riesgoF cov (normalizarF (List.replicate n 0))) = none ∧
    (∀ d : List ℝ, 0 < d.sum → ∀ w ∈ normalizarF d, w ≠ none) := by
  have hfin : ∀ d : List ℝ, 0 < d.sum → ∀ w ∈ normalizarF d, w ≠ none := by
    intro d hd w hwmem
    simp only [normalizarF, List.mem_map] at hwmem
    obtain ⟨x, _, rfl⟩ := hwmem
    simp [odiv, ne_of_gt hd]
  have hw : normalizarF (List.replicate n (0 : ℝ)) = List.replicate n none := by
    simp only [normalizarF, List.sum_replicate, smul_zero, List.map_replicate]
    simp [odiv]
  cases n with
  | zero => exact absurd hn (by omega)
  | succ k =>
    cases mean with
    | nil => simp at hm
    | cons m0 mtl =>
      cases cov with
      | nil => simp at hc
      | cons c0 ctl =>
        rw [hw, List.replicate_succ]
        have hret : retornoF (m0 :: mtl) (none :: List.replicate k none) = none := by
          rw [retornoF, List.map_cons]
          exact odot_some_none m0 _ _
        have hquad : quadFormF (c0 :: ctl) (none :: List.replicate k none) = none := by
          rw [quadFormF, matVecF, List.map_cons]
          exact odot_none_left _ _ (List.cons_ne_nil _ _)
        have hrisk : riesgoF (c0 :: ctl) (none :: List.replicate k none) = none := by
          rw [riesgoF, hquad]
          rfl
        refine ⟨rfl, hret, hrisk, ?_, ?_, hfin⟩
        · rw [hret, hrisk]
          rfl
        · rw [hret, hrisk, sharpe_calcF, if_pos (by simp)]
          rfl

/-- Witness for C10 at `n = 1`, `mean = [2]`, `cov = [[3]]`,
`riskFreeRate = 5`. -/
theorem C10_zero_draw_nan_witness :
    (0 < 1 ∧ [(2 : ℝ)].length = 1 ∧ [[(3 : ℝ)]].length = 1) ∧
    normalizarF (List.replicate 1 (0 : ℝ)) = List.replicate 1 none ∧
    retornoF [(2 : ℝ)] (normalizarF (List.replicate 1 0)) = none :=
  ⟨⟨Nat.one_pos, rfl, rfl⟩,
    (C10_zero_draw_nan [(2 : ℝ)] [[(3 : ℝ)]] 5 1 Nat.one_pos rfl rfl).1,
    (C10_zero_draw_nan [(2 : ℝ)] [[(3 : ℝ)]] 5 1 Nat.one_pos rfl rfl).2.1⟩
